import Mathlib

/-!
Verification of the Botmaker→Chatwoot diagnostic viewer (`src/web/app.js`,
first IIFE — the authoritative variant cited by the spec).

JavaScript runtime values are shallowly embedded as the inductive `JSVal`;
JS strings are modelled as Lean `String` (manipulated through `List Char`
where character-level computation is needed).  The DOM is not modelled:
rendering functions return the markup text they insert (`innerHTML`
payloads) as `List Char`.  Platform builtins with unbounded behaviour
(`JSON.parse`) are taken as parameters of the functions that use them, so
every theorem quantifying over them holds for the real parser as well.
-/

namespace BotmakerViewer

/-- A JavaScript runtime value.  `date` carries the `toISOString()` text
of a `Date` object; `undefined` is JavaScript `undefined`; `func` is a
function value carrying its `String()` source text (never produced by
`JSON.parse`, but readable off the prototype chain, e.g. `toString`).
Object fields are listed with distinct keys (as `JSON.parse` produces
them). -/
inductive JSVal where
  | null
  | undefined
  | bool (b : Bool)
  | num (n : Int)
  | str (s : String)
  | date (iso : String)
  | func (src : String)
  | arr (elems : List JSVal)
  | obj (fields : List (String × JSVal))

/-- JavaScript truthiness of a value (`Boolean(v)`). -/
def jsTruthy : JSVal → Bool
  | .null => false
  | .undefined => false
  | .bool b => b
  | .num n => n != 0
  | .str s => s != ""
  | .date _ => true
  | .func _ => true
  | .arr _ => true
  | .obj _ => true

/-- Whether the value is `null` or `undefined` — exactly the values on
which a property read (`payload.error`) throws a `TypeError`. -/
def isNullish : JSVal → Bool
  | .null => true
  | .undefined => true
  | _ => false

/-- Whether `typeof v === 'object'` holds in JavaScript.  Note that both
`null` and `Date` objects satisfy it. -/
def jsTypeofIsObject : JSVal → Bool
  | .null => true
  | .arr _ => true
  | .obj _ => true
  | .date _ => true
  | _ => false

/-- `Array.isArray(v)`. -/
def isArrayVal : JSVal → Bool
  | .arr _ => true
  | _ => false

/-- Optional-chaining property access `v?.k`: `undefined` unless `v` is an
object owning the key (prototype-chain properties are not modelled; the
records here come from `JSON.parse`, whose objects own all their data). -/
def getField (v : JSVal) (k : String) : JSVal :=
  match v with
  | .obj fs =>
    match fs.lookup k with
    | some x => x
    | none => .undefined
  | _ => .undefined

/-- Nullish coalescing against `null` (`x ?? null` normalised to an
`Option`): `none` exactly when `x` is `null` or `undefined`. -/
def nullishToNone : JSVal → Option JSVal
  | .null => none
  | .undefined => none
  | v => some v

/-- `Array.isArray(x) ? x : []` — the dataset normalisation used by
`applyData` (src/web/app.js:290-292). -/
def asArray : JSVal → List JSVal
  | .arr xs => xs
  | _ => []

mutual
/-- JavaScript string coercion `String(v)` (for `Date` values the model
returns the ISO text it carries; the branches where this matters are not
reachable with `JSON.parse`-produced data). -/
def jsToString : JSVal → String
  | .null => "null"
  | .undefined => "undefined"
  | .bool true => "true"
  | .bool false => "false"
  | .num n => toString n
  | .str s => s
  | .date iso => iso
  | .func src => src
  | .arr xs => jsJoinList xs
  | .obj _ => "[object Object]"

/-- `Array.prototype.join(",")`, the coercion of an array to a string. -/
def jsJoinList : List JSVal → String
  | [] => ""
  | [v] => jsJoinElem v
  | v :: rest => jsJoinElem v ++ "," ++ jsJoinList rest

/-- Element rendering inside `Array.prototype.join`: `null` and
`undefined` become the empty string. -/
def jsJoinElem : JSVal → String
  | .null => ""
  | .undefined => ""
  | v => jsToString v
end

/-- Metadata of one dataset toggle, mirroring the `DATASETS` constant
(src/web/app.js:6-10). -/
structure DatasetMeta where
  key : String
  label : String

/-- The declared dataset order: contacts, chats, messages. -/
def DATASETS : List DatasetMeta :=
  [⟨"contacts", "Contatos"⟩, ⟨"chats", "Conversas"⟩, ⟨"messages", "Mensagens"⟩]

/-- The mutable application state (src/web/app.js:12-18). -/
structure AppState where
  summary : Option JSVal
  contacts : List JSVal
  chats : List JSVal
  messages : List JSVal
  dataset : String

/-- Dynamic field read `state[k]` restricted to the dataset sequences;
`none` models `undefined` for keys that are not dataset keys. -/
def stateList (st : AppState) (k : String) : Option (List JSVal) :=
  if k = "contacts" then some st.contacts
  else if k = "chats" then some st.chats
  else if k = "messages" then some st.messages
  else none

/-- The guard `!state[state.dataset] || state[state.dataset].length === 0`
of src/web/app.js:299. -/
def missingOrEmpty (o : Option (List JSVal)) : Bool :=
  match o with
  | none => true
  | some l => l.length == 0

/-- The dataset re-selection of src/web/app.js:299-302, applied to the
state `st1` that already holds the new data: when the active dataset is
missing or empty, `DATASETS.find` picks the first non-empty key and
`'contacts'` is the fallback. -/
def chooseDataset (st1 : AppState) : String :=
  if missingOrEmpty (stateList st1 st1.dataset) then
    match DATASETS.find? (fun d => ((stateList st1 d.key).getD []).length > 0) with
    | some d => d.key
    | none => "contacts"
  else st1.dataset

/-- `applyData(payload)` (src/web/app.js:288-308): replace the summary and
the three dataset sequences from the payload, then re-select the active
dataset if the current one is empty.  (The UI refresh and the success log
are display-only side effects and are not part of the state model.) -/
def applyData (payload : JSVal) (st : AppState) : AppState :=
  let st1 : AppState :=
    { summary := nullishToNone (getField payload "summary"),
      contacts := asArray (getField payload "contacts"),
      chats := asArray (getField payload "chats"),
      messages := asArray (getField payload "messages"),
      dataset := st.dataset }
  { st1 with dataset := chooseDataset st1 }

/-- Claim C1: `applyData` rebuilds the summary and all three dataset
sequences from the payload alone — the summary becomes the payload's
summary (absent when the payload has none), each dataset becomes the
payload's array (empty when absent or not an array), and none of the four
components depends on the previous snapshot, so after the call they all
originate from the same payload. -/
theorem applyData_replaces_snapshot (payload : JSVal) (st st2 : AppState) :
    ((applyData payload st).summary = nullishToNone (getField payload "summary")
      ∧ (applyData payload st).contacts = asArray (getField payload "contacts")
      ∧ (applyData payload st).chats = asArray (getField payload "chats")
      ∧ (applyData payload st).messages = asArray (getField payload "messages"))
    ∧ ((applyData payload st).summary = (applyData payload st2).summary
      ∧ (applyData payload st).contacts = (applyData payload st2).contacts
      ∧ (applyData payload st).chats = (applyData payload st2).chats
      ∧ (applyData payload st).messages = (applyData payload st2).messages) :=
  ⟨⟨rfl, rfl, rfl, rfl⟩, rfl, rfl, rfl, rfl⟩

/-- Behaviour of the dataset re-selection on an arbitrary post-replacement
state, split by which of the three keys is active. -/
theorem chooseDataset_spec (summary : Option JSVal) (cs hs ms : List JSVal)
    (ds : String) (h : ds = "contacts" ∨ ds = "chats" ∨ ds = "messages") :
    ((if ds = "contacts" then cs.length
      else if ds = "chats" then hs.length else ms.length) ≠ 0 →
        chooseDataset ⟨summary, cs, hs, ms, ds⟩ = ds)
    ∧ ((if ds = "contacts" then cs.length
        else if ds = "chats" then hs.length else ms.length) = 0 →
        chooseDataset ⟨summary, cs, hs, ms, ds⟩ =
          (if cs.length ≠ 0 then "contacts"
           else if hs.length ≠ 0 then "chats"
           else if ms.length ≠ 0 then "messages"
           else "contacts")) := by
  rcases h with h | h | h <;> subst h <;> constructor <;> intro hlen <;>
    by_cases hc : cs.length = 0 <;> by_cases hh : hs.length = 0 <;>
    by_cases hm : ms.length = 0 <;>
    simp_all [chooseDataset, stateList, missingOrEmpty, DATASETS, List.find?,
      Nat.pos_iff_ne_zero]

/-- Claim C3: after `applyData`, if the active dataset key now maps to an
empty sequence the active key becomes the first non-empty key in the
declared order contacts, chats, messages (defaulting to `contacts` when
all three are empty); if the active dataset is non-empty it is left
unchanged.  The hypothesis is the store invariant that the active key is
always one of the three known keys. -/
theorem applyData_reselects_active (payload : JSVal) (st : AppState)
    (h : st.dataset = "contacts" ∨ st.dataset = "chats" ∨ st.dataset = "messages") :
    let contacts := asArray (getField payload "contacts")
    let chats := asArray (getField payload "chats")
    let messages := asArray (getField payload "messages")
    let activeLen : Nat :=
      if st.dataset = "contacts" then contacts.length
      else if st.dataset = "chats" then chats.length
      else messages.length
    (activeLen ≠ 0 → (applyData payload st).dataset = st.dataset)
    ∧ (activeLen = 0 →
        (applyData payload st).dataset =
          (if contacts.length ≠ 0 then "contacts"
           else if chats.length ≠ 0 then "chats"
           else if messages.length ≠ 0 then "messages"
           else "contacts")) := by
  intro contacts chats messages activeLen
  exact chooseDataset_spec (nullishToNone (getField payload "summary"))
    contacts chats messages st.dataset h

/-- Witness for C3 at a concrete input: the active dataset `messages` is
empty in the payload while `chats` is non-empty, so the active key
switches to `chats` (scenario 5 of the spec's testable properties). -/
def c3Payload : JSVal :=
  .obj [("chats", .arr [.num 1, .num 2, .num 3]), ("messages", .arr [])]

/-- Witness state for C3: `messages` is the active dataset. -/
def c3State : AppState :=
  { summary := none, contacts := [], chats := [], messages := [.num 7],
    dataset := "messages" }

theorem applyData_reselects_active_witness :
    (applyData c3Payload c3State).dataset = "chats" := by
  exact ((applyData_reselects_active c3Payload c3State
    (Or.inr (Or.inr rfl))).2 (by decide)).trans (by decide)

/-- One call to `pushLog` (src/web/app.js:22-37): the formatted line that
the call appends.  `toLocaleTimeString` is real-time, so the timestamp
text is a parameter; `level.toUpperCase()` is modelled per character. -/
def logLine (timestamp message level : String) (details : Option String) : String :=
  let base := "[" ++ timestamp ++ "] [" ++ String.mk (level.toList.map Char.toUpper)
    ++ "] " ++ message
  match details with
  | some d => if d ≠ "" then base ++ "\n" ++ d else base
  | none => base

/-- A recorded call to `pushLog`: timestamp text, message, level and the
optional details block. -/
structure LogCall where
  timestamp : String
  message : String
  level : String
  details : Option String

/-- The line a `LogCall` contributes to the buffer. -/
def LogCall.line (c : LogCall) : String :=
  logLine c.timestamp c.message c.level c.details

/-- `pushLog` acting on the `logLines` buffer (src/web/app.js:22-37): push
the new line, then `shift()` the oldest entry away when the buffer holds
more than 400 lines.  (Mirroring the buffer into the `#logOutput` element
is a display-only side effect.) -/
def pushLog (logLines : List String) (c : LogCall) : List String :=
  let lines := logLines ++ [c.line]
  if lines.length > 400 then lines.tail else lines

/-- A whole session of `pushLog` calls starting from a given buffer. -/
def pushLogAll (logLines : List String) (calls : List LogCall) : List String :=
  calls.foldl pushLog logLines

/-- While the buffer stays within half plus its bound, `pushLogAll` is a
plain append. -/
theorem pushLogAll_append (calls : List LogCall) (init : List String)
    (h : init.length + calls.length ≤ 400) :
    pushLogAll init calls = init ++ calls.map LogCall.line := by
  induction calls generalizing init with
  | nil => simp [pushLogAll]
  | cons c rest ih =>
    have hlen : (init ++ [c.line]).length = init.length + 1 := by simp
    have hnot : ¬(init ++ [c.line]).length > 400 := by
      rw [hlen]
      simp only [List.length_cons] at h
      omega
    have hpush : pushLog init c = init ++ [c.line] := by
      simp only [pushLog]
      rw [if_neg hnot]
    have hstep : pushLogAll init (c :: rest) = pushLogAll (init ++ [c.line]) rest := by
      simp [pushLogAll, hpush]
    rw [hstep, ih (init ++ [c.line])]
    · simp
    · rw [hlen]
      simp only [List.length_cons] at h
      omega

/-- Claim C5: the log ring buffer never exceeds 400 entries — one
`pushLog` call on a buffer within the bound stays within the bound — and
eviction is FIFO: pushing 401 entries into an empty buffer leaves exactly
the lines of calls 2..401, so the first entry is gone and the second is
the oldest. -/
theorem pushLog_ring_buffer :
    (∀ (logLines : List String) (c : LogCall), logLines.length ≤ 400 →
      (pushLog logLines c).length ≤ 400)
    ∧ (∀ calls : List LogCall, calls.length = 401 →
      pushLogAll [] calls = (calls.map LogCall.line).tail) := by
  constructor
  · intro logLines c h
    simp only [pushLog]
    split
    · simp only [List.length_tail, List.length_append, List.length_cons,
        List.length_nil]
      omega
    · next hcond =>
      simp only [List.length_append, List.length_cons, List.length_nil] at hcond ⊢
      omega
  · intro calls h
    rcases List.eq_nil_or_concat calls with hnil | ⟨front, last, hsplit⟩
    · simp [hnil] at h
    · subst hsplit
      have hf : front.length = 400 := by
        simp only [List.concat_eq_append, List.length_append, List.length_cons,
          List.length_nil] at h
        omega
      have h1 : pushLogAll [] (front.concat last)
          = pushLog (pushLogAll [] front) last := by
        simp [pushLogAll, List.concat_eq_append, List.foldl_append]
      have h2 : pushLogAll [] front = front.map LogCall.line := by
        simpa using pushLogAll_append front [] (by simp [hf])
      rw [h1, h2]
      simp only [pushLog, List.concat_eq_append, List.map_append]
      rw [if_pos (by simp [hf])]
      simp

/-- Witness for C5 at concrete inputs: one push on a full buffer of 400
lines keeps the bound, and 401 identical pushes on an empty buffer keep
exactly the last 400 lines. -/
def c5Call : LogCall := ⟨"10:00:00", "Interface carregada", "info", none⟩

theorem pushLog_ring_buffer_witness :
    (pushLog (List.replicate 400 "line") c5Call).length ≤ 400
    ∧ pushLogAll [] (List.replicate 401 c5Call)
        = ((List.replicate 401 c5Call).map LogCall.line).tail := by
  constructor
  · exact pushLog_ring_buffer.1 (List.replicate 400 "line") c5Call
      (by rw [List.length_replicate])
  · exact pushLog_ring_buffer.2 (List.replicate 401 c5Call)
      (by rw [List.length_replicate])

/-- Split a character sequence at `/\r?\n/` (src/web/app.js:98): a line
break is `\n`, optionally preceded by a consumed `\r`; a `\r` not followed
by `\n` is ordinary text. -/
def splitLines (cs : List Char) : List (List Char) :=
  match cs with
  | [] => [[]]
  | '\n' :: rest => [] :: splitLines rest
  | '\r' :: '\n' :: rest => [] :: splitLines rest
  | c :: rest =>
    match splitLines rest with
    | [] => [[c]]
    | line :: lines => (c :: line) :: lines

/-- `String.prototype.trim()` on a character sequence (ASCII whitespace;
the Unicode-only whitespace JavaScript also strips does not occur in the
data handled here). -/
def trimChars (cs : List Char) : List Char :=
  ((cs.dropWhile Char.isWhitespace).reverse.dropWhile Char.isWhitespace).reverse

/-- `parseNDJSON(text)` (src/web/app.js:95-113), parameterised by the
platform JSON parser, which either returns a value or throws (`none`).
The result is the ordered list of decoded records together with the
number of per-line error log entries emitted.  The function is total: the
tolerant parser never raises. -/
def parseNDJSON (jsonParse : String → Option JSVal) (text : Option String) :
    List JSVal × Nat :=
  match text with
  | none => ([], 0)
  | some t =>
    if t = "" then ([], 0)
    else
      (splitLines t.toList).foldl
        (fun acc line =>
          let trimmed := trimChars line
          if trimmed.isEmpty then acc
          else
            match jsonParse (String.mk trimmed) with
            | some v => (acc.1 ++ [v], acc.2)
            | none => (acc.1, acc.2 + 1))
        ([], 0)

/-- The number of non-blank lines of an input text (blank meaning that
`trim()` leaves nothing), with an absent input having none. -/
def nonBlankLineCount (text : Option String) : Nat :=
  match text with
  | none => 0
  | some t => ((splitLines t.toList).filter (fun l => ¬(trimChars l).isEmpty)).length

/-- Accounting invariant of the `parseNDJSON` fold. -/
theorem parseNDJSON_fold_count (jsonParse : String → Option JSVal)
    (lines : List (List Char)) (acc : List JSVal × Nat) :
    ((lines.foldl
        (fun acc line =>
          let trimmed := trimChars line
          if trimmed.isEmpty then acc
          else
            match jsonParse (String.mk trimmed) with
            | some v => (acc.1 ++ [v], acc.2)
            | none => (acc.1, acc.2 + 1))
        acc).1.length
      + (lines.foldl
        (fun acc line =>
          let trimmed := trimChars line
          if trimmed.isEmpty then acc
          else
            match jsonParse (String.mk trimmed) with
            | some v => (acc.1 ++ [v], acc.2)
            | none => (acc.1, acc.2 + 1))
        acc).2)
      = acc.1.length + acc.2 + (lines.filter (fun l => ¬(trimChars l).isEmpty)).length := by
  induction lines generalizing acc with
  | nil => simp
  | cons line rest ih =>
    by_cases hb : (trimChars line).isEmpty
    · simp only [List.foldl_cons, List.filter_cons]
      rw [ih]
      simp [hb]
    · cases hp : jsonParse (String.mk (trimChars line)) with
      | some v =>
        simp only [List.foldl_cons, List.filter_cons]
        rw [if_neg hb, hp]
        rw [ih]
        simp [hb]
        omega
      | none =>
        simp only [List.foldl_cons, List.filter_cons]
        rw [if_neg hb, hp]
        rw [ih]
        simp [hb]
        omega

/-- Claim C2: for every platform JSON parser and every input, the tolerant
parser (a total function — it never raises) returns a record sequence and
an error-log count whose sum is the number of non-blank lines of the
input, and an absent or empty input yields the empty sequence with no log
activity. -/
theorem parseNDJSON_accounting (jsonParse : String → Option JSVal)
    (text : Option String) :
    ((parseNDJSON jsonParse text).1.length + (parseNDJSON jsonParse text).2
      = nonBlankLineCount text)
    ∧ parseNDJSON jsonParse none = ([], 0)
    ∧ parseNDJSON jsonParse (some "") = ([], 0) := by
  refine ⟨?_, rfl, rfl⟩
  match text with
  | none => rfl
  | some t =>
    by_cases ht : t = ""
    · subst ht
      simp [parseNDJSON, nonBlankLineCount, splitLines, trimChars]
    · simp only [parseNDJSON, nonBlankLineCount, if_neg ht]
      simpa using parseNDJSON_fold_count jsonParse (splitLines t.toList) ([], 0)

/-- The single-quote character, written by code point to keep the source
free of stray quote characters. -/
def squote : Char := Char.ofNat 39

/-- `String.prototype.replace(/c/g, repl)` for a one-character pattern:
every occurrence of `target` becomes `repl`. -/
def replaceAll (cs : List Char) (target : Char) (repl : List Char) : List Char :=
  match cs with
  | [] => []
  | c :: rest => (if c = target then repl else [c]) ++ replaceAll rest target repl

/-- `escapeHtml(value)` (src/web/app.js:44-51): the five sequential global
replacements, ampersand first. -/
def escapeHtml (cs : List Char) : List Char :=
  replaceAll (replaceAll (replaceAll (replaceAll (replaceAll cs
    '&' "&amp;".toList) '<' "&lt;".toList) '>' "&gt;".toList)
    '"' "&quot;".toList) squote "&#39;".toList

/-- Per-character characterisation of the five replacements: because the
ampersand pass runs first and no later replacement text contains a target
of a later pass, the chain acts on each input character independently. -/
def escapeChar (c : Char) : List Char :=
  if c = '&' then "&amp;".toList
  else if c = '<' then "&lt;".toList
  else if c = '>' then "&gt;".toList
  else if c = '"' then "&quot;".toList
  else if c = squote then "&#39;".toList
  else [c]

theorem replaceAll_append (a b : List Char) (t : Char) (r : List Char) :
    replaceAll (a ++ b) t r = replaceAll a t r ++ replaceAll b t r := by
  induction a with
  | nil => rfl
  | cons c rest ih => simp [replaceAll, ih]

theorem escapeHtml_cons (c : Char) (cs : List Char) :
    escapeHtml (c :: cs) = escapeHtml [c] ++ escapeHtml cs := by
  show escapeHtml ([c] ++ cs) = escapeHtml [c] ++ escapeHtml cs
  simp only [escapeHtml]
  rw [replaceAll_append, replaceAll_append, replaceAll_append, replaceAll_append,
    replaceAll_append]

theorem escapeHtml_single (c : Char) : escapeHtml [c] = escapeChar c := by
  by_cases h1 : c = '&'
  · subst h1; rfl
  · by_cases h2 : c = '<'
    · subst h2; rfl
    · by_cases h3 : c = '>'
      · subst h3; rfl
      · by_cases h4 : c = '"'
        · subst h4; rfl
        · by_cases h5 : c = squote
          · subst h5; rfl
          · simp [escapeHtml, replaceAll, escapeChar, h1, h2, h3, h4, h5]

theorem escapeChar_no_raw (d c : Char) (h : c ∈ escapeChar d) :
    c ≠ '<' ∧ c ≠ '>' ∧ c ≠ '"' ∧ c ≠ squote := by
  by_cases h1 : d = '&'
  · subst h1
    simp only [escapeChar, if_pos rfl] at h
    fin_cases h <;> refine ⟨by decide, by decide, by decide, by decide⟩
  · by_cases h2 : d = '<'
    · subst h2
      simp [escapeChar] at h
      rcases h with rfl | rfl | rfl | rfl <;>
        refine ⟨by decide, by decide, by decide, by decide⟩
    · by_cases h3 : d = '>'
      · subst h3
        simp [escapeChar] at h
        rcases h with rfl | rfl | rfl | rfl <;>
          refine ⟨by decide, by decide, by decide, by decide⟩
      · by_cases h4 : d = '"'
        · subst h4
          simp [escapeChar] at h
          rcases h with rfl | rfl | rfl | rfl | rfl | rfl <;>
            refine ⟨by decide, by decide, by decide, by decide⟩
        · by_cases h5 : d = squote
          · subst h5
            simp [escapeChar, squote] at h
            rcases h with rfl | rfl | rfl | rfl | rfl <;>
              refine ⟨by decide, by decide, by decide, by decide⟩
          · simp only [escapeChar, if_neg h1, if_neg h2, if_neg h3, if_neg h4,
              if_neg h5, List.mem_singleton] at h
            subst h
            exact ⟨h2, h3, h4, h5⟩

/-- No raw markup-significant character other than the entity-leading
ampersand survives `escapeHtml`. -/
theorem escapeHtml_no_raw (cs : List Char) (c : Char) (h : c ∈ escapeHtml cs) :
    c ≠ '<' ∧ c ≠ '>' ∧ c ≠ '"' ∧ c ≠ squote := by
  induction cs with
  | nil => simp [escapeHtml, replaceAll] at h
  | cons d rest ih =>
    rw [escapeHtml_cons, List.mem_append, escapeHtml_single] at h
    rcases h with h | h
    · exact escapeChar_no_raw d c h
    · exact ih h

/-- One escaped character of a JSON string literal, as `JSON.stringify`
emits it (quote, backslash and the common control characters). -/
def jsonEscChar (c : Char) : List Char :=
  if c = '"' then ['\\', '"']
  else if c = '\\' then ['\\', '\\']
  else if c = '\n' then ['\\', 'n']
  else if c = '\r' then ['\\', 'r']
  else if c = '\t' then ['\\', 't']
  else [c]

/-- A JSON string literal: the escaped text between double quotes. -/
def jsonQuote (s : String) : List Char :=
  '"' :: s.toList.foldr (fun c acc => jsonEscChar c ++ acc) ['"']

/-- Opening brace character, by code point. -/
def lbrace : Char := Char.ofNat 123

/-- Closing brace character, by code point. -/
def rbrace : Char := Char.ofNat 125

mutual
/-- `JSON.stringify(v)` (compact form): `none` models the top-level
`undefined` result.  A `Date` serialises through its `toJSON`, i.e. as the
quoted ISO text.  Numbers are modelled as integers throughout. -/
def stringifyVal : JSVal → Option (List Char)
  | .null => some "null".toList
  | .undefined => none
  | .bool true => some "true".toList
  | .bool false => some "false".toList
  | .num n => some (toString n).toList
  | .str s => some (jsonQuote s)
  | .date iso => some (jsonQuote iso)
  | .func _ => none
  | .arr xs => some ('[' :: stringifyElems xs ++ [']'])
  | .obj fs => some (lbrace :: stringifyFields fs ++ [rbrace])

/-- Array elements of `JSON.stringify`: an `undefined` element serialises
as `null`. -/
def stringifyElems : List JSVal → List Char
  | [] => []
  | [v] => (stringifyVal v).getD "null".toList
  | v :: rest => (stringifyVal v).getD "null".toList ++ ',' :: stringifyElems rest

/-- Object fields of `JSON.stringify`: fields whose value serialises to
`undefined` are omitted. -/
def stringifyFields : List (String × JSVal) → List Char
  | [] => []
  | (k, v) :: rest =>
    match stringifyVal v with
    | none => stringifyFields rest
    | some sv =>
      if (stringifyFields rest).isEmpty then jsonQuote k ++ ':' :: sv
      else jsonQuote k ++ ':' :: sv ++ ',' :: stringifyFields rest
end

/-- The placeholder markup for `null`/`undefined` cells
(src/web/app.js:55). -/
def mutedPlaceholder : List Char := "<span class=\"muted\">—</span>".toList

/-- Opening of the inline-code wrapper for JSON-serialised cells. -/
def codeOpen : List Char := "<code>".toList

/-- Closing of the inline-code wrapper for JSON-serialised cells. -/
def codeClose : List Char := "</code>".toList

/-- `formatValue(value)` (src/web/app.js:53-71), returning the markup text
of one table cell.  The branch order mirrors the source: null/undefined,
then `typeof value === 'object'` (whose `JSON.stringify` call only throws
on circular data, impossible here, so the `catch` arm is dead), then
boolean, then the `instanceof Date` arm — dead code, because a `Date` is
`typeof 'object'` and is already taken by the stringify arm — then string
coercion. -/
def formatValue : JSVal → List Char
  | .null => mutedPlaceholder
  | .undefined => mutedPlaceholder
  | v =>
    if jsTypeofIsObject v then
      match stringifyVal v with
      | some s => codeOpen ++ escapeHtml s ++ codeClose
      | none => codeOpen ++ escapeHtml (jsToString v).toList ++ codeClose
    else
      match v with
      | .bool b => if b then "true".toList else "false".toList
      | .date iso => escapeHtml iso.toList
      | _ => escapeHtml (jsToString v).toList

/-- A table body cell (src/web/app.js:272). -/
def tdCell (content : List Char) : List Char :=
  "<td>".toList ++ content ++ "</td>".toList

/-- A table header cell (src/web/app.js:267). -/
def thCell (col : String) : List Char :=
  "<th>".toList ++ escapeHtml col.toList ++ "</th>".toList

/-- Every `formatValue` result is either fixed markup (placeholder or
boolean text) or value text passed through `escapeHtml`, possibly inside
the inline-code wrapper. -/
theorem formatValue_escaped (v : JSVal) : ∃ payload : List Char,
    formatValue v = mutedPlaceholder
    ∨ formatValue v = "true".toList
    ∨ formatValue v = "false".toList
    ∨ formatValue v = escapeHtml payload
    ∨ formatValue v = codeOpen ++ escapeHtml payload ++ codeClose := by
  cases v with
  | null => exact ⟨[], Or.inl rfl⟩
  | undefined => exact ⟨[], Or.inl rfl⟩
  | bool b =>
    cases b
    · exact ⟨[], Or.inr (Or.inr (Or.inl rfl))⟩
    · exact ⟨[], Or.inr (Or.inl rfl)⟩
  | num n =>
    exact ⟨(jsToString (.num n)).toList, Or.inr (Or.inr (Or.inr (Or.inl rfl)))⟩
  | str s =>
    exact ⟨(jsToString (.str s)).toList, Or.inr (Or.inr (Or.inr (Or.inl rfl)))⟩
  | func src =>
    exact ⟨(jsToString (.func src)).toList, Or.inr (Or.inr (Or.inr (Or.inl rfl)))⟩
  | date iso =>
    refine ⟨jsonQuote iso, Or.inr (Or.inr (Or.inr (Or.inr ?_)))⟩
    simp [formatValue, jsTypeofIsObject, stringifyVal]
  | arr xs =>
    cases h : stringifyVal (.arr xs) with
    | some s =>
      refine ⟨s, Or.inr (Or.inr (Or.inr (Or.inr ?_)))⟩
      simp [formatValue, jsTypeofIsObject, h]
    | none =>
      refine ⟨(jsToString (.arr xs)).toList, Or.inr (Or.inr (Or.inr (Or.inr ?_)))⟩
      simp [formatValue, jsTypeofIsObject, h]
  | obj fs =>
    cases h : stringifyVal (.obj fs) with
    | some s =>
      refine ⟨s, Or.inr (Or.inr (Or.inr (Or.inr ?_)))⟩
      simp [formatValue, jsTypeofIsObject, h]
    | none =>
      refine ⟨(jsToString (.obj fs)).toList, Or.inr (Or.inr (Or.inr (Or.inr ?_)))⟩
      simp [formatValue, jsTypeofIsObject, h]

/-- Claim C4: every value rendered into a table cell goes through
`formatValue`, whose output is fixed markup or `escapeHtml`-escaped value
text (also when the value is an object or array serialised to JSON);
every header cell wraps the `escapeHtml`-escaped column name; and
`escapeHtml` leaves no raw angle bracket or quote character in its
output (the ampersand survives only as the head of the replacement
entities), so escaped text is never interpreted as markup. -/
theorem rendered_text_escaped (v : JSVal) (col : String) :
    (∃ payload : List Char,
      formatValue v = mutedPlaceholder
      ∨ formatValue v = "true".toList
      ∨ formatValue v = "false".toList
      ∨ formatValue v = escapeHtml payload
      ∨ formatValue v = codeOpen ++ escapeHtml payload ++ codeClose)
    ∧ thCell col = "<th>".toList ++ escapeHtml col.toList ++ "</th>".toList
    ∧ (∀ (cs : List Char) (c : Char), c ∈ escapeHtml cs →
        c ≠ '<' ∧ c ≠ '>' ∧ c ≠ '"' ∧ c ≠ squote) :=
  ⟨formatValue_escaped v, rfl, escapeHtml_no_raw⟩

/-- A concrete ISO timestamp for the C7 analysis. -/
def c7ISO : String := "2020-01-02T03:04:05.000Z"

/-- Claim C7 (code bug): a `Date` value is NOT formatted by the date rule.
Because `typeof date === 'object'`, the stringify arm of `formatValue`
captures it first and renders the JSON-quoted ISO text inside the
inline-code wrapper; the `value instanceof Date` arm of
src/web/app.js:67-69 is unreachable, so the cell text is never the bare
escaped ISO text that arm (and the spec) prescribe. -/
theorem formatValue_date_not_iso :
    formatValue (.date c7ISO)
        = codeOpen ++ escapeHtml (jsonQuote c7ISO) ++ codeClose
    ∧ formatValue (.date c7ISO) ≠ escapeHtml c7ISO.toList := by
  have h1 : formatValue (.date c7ISO)
      = codeOpen ++ escapeHtml (jsonQuote c7ISO) ++ codeClose := by
    simp [formatValue, jsTypeofIsObject, stringifyVal]
  refine ⟨h1, ?_⟩
  rw [h1]
  decide

/-- Lexicographic comparison of character sequences by code point — the
default `Array.prototype.sort()` string comparison.  (JavaScript compares
UTF-16 code units; for the code points below the surrogate range occurring
here the two orders agree.) -/
def strLe (a b : List Char) : Bool :=
  match a, b with
  | [], _ => true
  | _ :: _, [] => false
  | c :: cs, d :: ds => if c = d then strLe cs ds else decide (c < d)

theorem strLe_total (a b : List Char) : strLe a b = true ∨ strLe b a = true := by
  induction a generalizing b with
  | nil => left; rfl
  | cons c cs ih =>
    cases b with
    | nil => right; rfl
    | cons d ds =>
      by_cases h : c = d
      · subst h
        rcases ih ds with h1 | h1
        · left; simp [strLe, h1]
        · right; simp [strLe, h1]
      · rcases lt_trichotomy c d with hlt | heq | hgt
        · left; simp [strLe, h, hlt]
        · exact absurd heq h
        · right
          have hne : d ≠ c := fun hh => h hh.symm
          simp [strLe, hne, hgt]

theorem strLe_trans (a b c : List Char) (hab : strLe a b = true)
    (hbc : strLe b c = true) : strLe a c = true := by
  induction a generalizing b c with
  | nil => rfl
  | cons x xs ih =>
    cases b with
    | nil => simp [strLe] at hab
    | cons y ys =>
      cases c with
      | nil => simp [strLe] at hbc
      | cons z zs =>
        by_cases hxy : x = y <;> by_cases hyz : y = z
        · subst hxy; subst hyz
          simp only [strLe, if_pos rfl] at hab hbc ⊢
          exact ih ys zs hab hbc
        · subst hxy
          simp only [strLe, if_pos rfl, if_neg hyz] at hbc ⊢
          simp only [decide_eq_true_eq] at hbc
          simpa using hbc
        · subst hyz
          simp only [strLe, if_neg hxy] at hab
          simp only [decide_eq_true_eq] at hab
          simp only [strLe, if_neg (ne_of_lt hab)]
          simpa using hab
        · simp only [strLe, if_neg hxy] at hab
          simp only [strLe, if_neg hyz] at hbc
          simp only [decide_eq_true_eq] at hab hbc
          have hxz : x < z := lt_trans hab hbc
          simp only [strLe, if_neg (ne_of_lt hxz)]
          simpa using hxz

/-- The string order used to sort the inferred columns. -/
def colLe (a b : String) : Prop := strLe a.toList b.toList = true

instance : DecidableRel colLe := fun a b =>
  inferInstanceAs (Decidable (strLe a.toList b.toList = true))

instance : IsTotal String colLe := ⟨fun a b => strLe_total a.toList b.toList⟩

instance : IsTrans String colLe :=
  ⟨fun a b c => strLe_trans a.toList b.toList c.toList⟩

/-- The guard of src/web/app.js:259: the record is truthy, of object type
and not an array — only such records contribute their keys as columns. -/
def contributesColumns (record : JSVal) : Bool :=
  jsTruthy record && jsTypeofIsObject record && !isArrayVal record

/-- `Object.keys(record)` for records passing the guard: the own keys of a
plain object, in insertion order (a `Date` passes the guard but owns no
enumerable keys). -/
def recordOwnKeys : JSVal → List String
  | .obj fs => fs.map (fun kv => kv.1)
  | _ => []

/-- `Set.prototype.add`: append the key unless already present. -/
def insertColumn (acc : List String) (k : String) : List String :=
  if k ∈ acc then acc else acc ++ [k]

/-- The `Set` of keys collected over the records (src/web/app.js:257-262),
in first-insertion order. -/
def collectColumns (records : List JSVal) : List String :=
  records.foldl
    (fun acc record =>
      if contributesColumns record then (recordOwnKeys record).foldl insertColumn acc
      else acc)
    []

/-- `Array.from(columns).sort()` (src/web/app.js:263): the sorted column
list of the rendered table. -/
def columnList (records : List JSVal) : List String :=
  (collectColumns records).insertionSort colLe

/-- The header row (src/web/app.js:267): one `<th>` cell per column. -/
def headerCells (records : List JSVal) : List (List Char) :=
  (columnList records).map thCell

theorem mem_insertColumn (acc : List String) (k x : String) :
    x ∈ insertColumn acc k ↔ x ∈ acc ∨ x = k := by
  by_cases h : k ∈ acc
  · simp only [insertColumn, if_pos h]
    constructor
    · exact Or.inl
    · rintro (hx | rfl)
      · exact hx
      · exact h
  · simp [insertColumn, if_neg h]

theorem mem_foldl_insertColumn (ks : List String) (acc : List String) (x : String) :
    x ∈ ks.foldl insertColumn acc ↔ x ∈ acc ∨ x ∈ ks := by
  induction ks generalizing acc with
  | nil => simp
  | cons k rest ih =>
    simp only [List.foldl_cons, ih, mem_insertColumn, List.mem_cons]
    tauto

theorem nodup_insertColumn (acc : List String) (k : String) (h : acc.Nodup) :
    (insertColumn acc k).Nodup := by
  by_cases hk : k ∈ acc
  · simpa [insertColumn, if_pos hk] using h
  · simp [insertColumn, if_neg hk, List.nodup_append, h, hk]

theorem nodup_foldl_insertColumn (ks : List String) (acc : List String)
    (h : acc.Nodup) : (ks.foldl insertColumn acc).Nodup := by
  induction ks generalizing acc with
  | nil => exact h
  | cons k rest ih => exact ih _ (nodup_insertColumn acc k h)

theorem mem_collectColumns_aux (records : List JSVal) (acc : List String) (k : String) :
    (k ∈ records.foldl
        (fun acc record =>
          if contributesColumns record then (recordOwnKeys record).foldl insertColumn acc
          else acc)
        acc)
      ↔ k ∈ acc ∨ ∃ r ∈ records, contributesColumns r ∧ k ∈ recordOwnKeys r := by
  induction records generalizing acc with
  | nil => simp
  | cons r rest ih =>
    by_cases hr : contributesColumns r
    · simp only [List.foldl_cons, if_pos hr, ih, mem_foldl_insertColumn,
        List.mem_cons]
      constructor
      · rintro ((h | h) | h)
        · exact Or.inl h
        · exact Or.inr ⟨r, Or.inl rfl, hr, h⟩
        · rcases h with ⟨r', hr', hc, hk⟩
          exact Or.inr ⟨r', Or.inr hr', hc, hk⟩
      · rintro (h | ⟨r', hr', hc, hk⟩)
        · exact Or.inl (Or.inl h)
        · rcases hr' with rfl | hr'
          · exact Or.inl (Or.inr hk)
          · exact Or.inr ⟨r', hr', hc, hk⟩
    · simp only [List.foldl_cons, if_neg hr, ih, List.mem_cons]
      constructor
      · rintro (h | ⟨r', hr', hc, hk⟩)
        · exact Or.inl h
        · exact Or.inr ⟨r', Or.inr hr', hc, hk⟩
      · rintro (h | ⟨r', hr', hc, hk⟩)
        · exact Or.inl h
        · rcases hr' with rfl | hr'
          · exact absurd hc hr
          · exact Or.inr ⟨r', hr', hc, hk⟩

theorem nodup_collectColumns (records : List JSVal) : (collectColumns records).Nodup := by
  suffices h : ∀ acc : List String, acc.Nodup →
      (records.foldl
        (fun acc record =>
          if contributesColumns record then (recordOwnKeys record).foldl insertColumn acc
          else acc)
        acc).Nodup from h [] List.nodup_nil
  induction records with
  | nil => intro acc h; exact h
  | cons r rest ih =>
    intro acc h
    by_cases hr : contributesColumns r
    · simpa [List.foldl_cons, if_pos hr] using ih _ (nodup_foldl_insertColumn _ acc h)
    · simpa [List.foldl_cons, if_neg hr] using ih _ h

/-- A record contributes the key `k` iff it is a plain object owning `k`. -/
theorem contributes_iff_obj (r : JSVal) (k : String) :
    (contributesColumns r ∧ k ∈ recordOwnKeys r)
      ↔ ∃ fs, r = JSVal.obj fs ∧ k ∈ fs.map (fun kv => kv.1) := by
  cases r <;>
    simp [contributesColumns, recordOwnKeys, jsTruthy, jsTypeofIsObject, isArrayVal]

/-- Claim C6: the rendered column list is sorted in the string order, has
no duplicates, contains exactly the union of the keys of the plain-object
records (arrays and non-objects contribute nothing), and the header row
has exactly one cell per column. -/
theorem updateDataTable_columns (records : List JSVal) :
    (columnList records).Sorted colLe
    ∧ (columnList records).Nodup
    ∧ (∀ k : String, k ∈ columnList records ↔
        ∃ fs, JSVal.obj fs ∈ records ∧ k ∈ fs.map (fun kv => kv.1))
    ∧ (headerCells records).length = (columnList records).length := by
  refine ⟨List.sorted_insertionSort colLe _, ?_, ?_, by simp [headerCells]⟩
  · exact ((List.perm_insertionSort colLe _).nodup_iff).mpr (nodup_collectColumns records)
  · intro k
    unfold columnList
    rw [(List.perm_insertionSort colLe (collectColumns records)).mem_iff]
    unfold collectColumns
    rw [mem_collectColumns_aux records [] k]
    simp only [List.not_mem_nil, false_or]
    constructor
    · rintro ⟨r, hr, hc, hk⟩
      rcases (contributes_iff_obj r k).mp ⟨hc, hk⟩ with ⟨fs, rfl, hkfs⟩
      exact ⟨fs, hr, hkfs⟩
    · rintro ⟨fs, hfs, hk⟩
      exact ⟨JSVal.obj fs, hfs, ((contributes_iff_obj (JSVal.obj fs) k).mpr
        ⟨fs, rfl, hk⟩)⟩

/-- A canonical array-index key: a non-empty digit string with no leading
zero (except `"0"` itself), as JavaScript treats string keys on arrays and
strings. -/
def parseArrayIndex (col : String) : Option Nat :=
  let cs := col.toList
  if cs ≠ [] ∧ cs.all Char.isDigit ∧ (cs.head? = some '0' → cs = ['0']) then
    some (cs.foldl (fun acc c => acc * 10 + (c.toNat - 48)) 0)
  else none

/-- Property read `record[col]`.  Own properties shadow everything:
the data keys of plain objects and the intrinsic `length` and canonical
indices of arrays and strings.  Every miss falls through to the prototype
chain, which is runtime-mutable engine state and therefore enters as the
parameter `proto` (`proto record col` is the inherited value, `undefined`
when the chain holds nothing; the standard chains answer with `func`
values for names such as `toString` or `map`).  `null` and `undefined`
have no properties and are anyway excluded by the truthiness guard of
`getCellValue`. -/
def jsIndex (proto : JSVal → String → JSVal) (record : JSVal) (col : String) : JSVal :=
  match record with
  | .null => .undefined
  | .undefined => .undefined
  | .obj fs =>
    match fs.lookup col with
    | some v => v
    | none => proto record col
  | .arr xs =>
    if col = "length" then .num xs.length
    else
      match parseArrayIndex col with
      | some i =>
        match xs.get? i with
        | some v => v
        | none => proto record col
      | none => proto record col
  | .str s =>
    if col = "length" then .num s.length
    else
      match parseArrayIndex col with
      | some i =>
        match s.toList.get? i with
        | some c => .str (String.mk [c])
        | none => proto record col
      | none => proto record col
  | _ => proto record col

/-- The cell value `record ? record[col] : undefined` of
src/web/app.js:271, under the prototype chain `proto`. -/
def getCellValue (proto : JSVal → String → JSVal) (record : JSVal) (col : String) :
    JSVal :=
  if jsTruthy record then jsIndex proto record col else .undefined

/-- The cells of one table row (src/web/app.js:269-273): one `<td>` per
inferred column. -/
def rowCells (proto : JSVal → String → JSVal) (record : JSVal)
    (columns : List String) : List (List Char) :=
  columns.map (fun col => tdCell (formatValue (getCellValue proto record col)))

/-- One rendered row: the cells joined inside a `<tr>`. -/
def renderRow (proto : JSVal → String → JSVal) (record : JSVal)
    (columns : List String) : List Char :=
  "<tr>".toList ++ (rowCells proto record columns).flatten ++ "</tr>".toList

/-- The rendered body rows (src/web/app.js:269-275): one row per record of
the active dataset. -/
def rowsHtml (proto : JSVal → String → JSVal) (records : List JSVal) :
    List (List Char) :=
  records.map (fun r => renderRow proto r (columnList records))

/-- The inline-code wrapper never produces the placeholder markup (their
second characters differ). -/
theorem code_ne_placeholder (x : List Char) :
    codeOpen ++ x ++ codeClose ≠ mutedPlaceholder := by
  intro h
  have h1 : (codeOpen ++ x ++ codeClose).tail.head? = mutedPlaceholder.tail.head? := by
    rw [h]
  have h2 : (codeOpen ++ x ++ codeClose).tail.head? = some 'c' := rfl
  have h3 : mutedPlaceholder.tail.head? = some 's' := rfl
  rw [h2, h3] at h1
  exact absurd (Option.some.inj h1) (by decide)

/-- Escaped text never equals the placeholder markup: the placeholder
starts with a raw angle bracket that escaping removes. -/
theorem escapeHtml_ne_placeholder (p : List Char) :
    escapeHtml p ≠ mutedPlaceholder := by
  intro h
  have hm : '<' ∈ escapeHtml p := by
    rw [h]
    exact (by decide : '<' ∈ mutedPlaceholder)
  exact (escapeHtml_no_raw p '<' hm).1 rfl

/-- `formatValue` renders the placeholder exactly for `null` and
`undefined`. -/
theorem formatValue_placeholder_iff (v : JSVal) :
    formatValue v = mutedPlaceholder ↔ (v = .null ∨ v = .undefined) := by
  constructor
  · intro h
    cases v with
    | null => exact Or.inl rfl
    | undefined => exact Or.inr rfl
    | bool b =>
      cases b
      · exact absurd h (by decide)
      · exact absurd h (by decide)
    | num n =>
      exact absurd h (escapeHtml_ne_placeholder (jsToString (.num n)).toList)
    | str s =>
      exact absurd h (escapeHtml_ne_placeholder (jsToString (.str s)).toList)
    | func src =>
      exact absurd h (escapeHtml_ne_placeholder (jsToString (.func src)).toList)
    | date iso =>
      rw [show formatValue (.date iso)
          = codeOpen ++ escapeHtml (jsonQuote iso) ++ codeClose by
        simp [formatValue, jsTypeofIsObject, stringifyVal]] at h
      exact absurd h (code_ne_placeholder _)
    | arr xs =>
      cases hs : stringifyVal (.arr xs) with
      | some s =>
        rw [show formatValue (.arr xs) = codeOpen ++ escapeHtml s ++ codeClose by
          simp [formatValue, jsTypeofIsObject, hs]] at h
        exact absurd h (code_ne_placeholder _)
      | none =>
        rw [show formatValue (.arr xs)
            = codeOpen ++ escapeHtml (jsToString (.arr xs)).toList ++ codeClose by
          simp [formatValue, jsTypeofIsObject, hs]] at h
        exact absurd h (code_ne_placeholder _)
    | obj fs =>
      cases hs : stringifyVal (.obj fs) with
      | some s =>
        rw [show formatValue (.obj fs) = codeOpen ++ escapeHtml s ++ codeClose by
          simp [formatValue, jsTypeofIsObject, hs]] at h
        exact absurd h (code_ne_placeholder _)
      | none =>
        rw [show formatValue (.obj fs)
            = codeOpen ++ escapeHtml (jsToString (.obj fs)).toList ++ codeClose by
          simp [formatValue, jsTypeofIsObject, hs]] at h
        exact absurd h (code_ne_placeholder _)
  · rintro (rfl | rfl) <;> rfl

/-- Claim C10 (amended): for every prototype chain, every rendered row
has exactly one cell per inferred column (rows are neither skipped nor
shorter than the header); a cell shows the placeholder exactly when the
JavaScript property read of the column on the record yields `null` or
`undefined`; and a plain-object record lacking the column's key reads the
prototype chain, so such a cell renders the placeholder exactly when the
chain supplies nothing there — for the ordinary data-named columns of
JSON records — while a column named after an inherited property (such as
`toString`) renders the inherited value instead.  (The original claim's
stronger clauses fail: array and string records expose their canonical
indices and `length`, and inherited properties are read through the
chain; see the counterexample.) -/
theorem table_rows_cells (proto : JSVal → String → JSVal) (records : List JSVal)
    (r : JSVal) (h : r ∈ records) :
    (rowsHtml proto records).length = records.length
    ∧ (rowCells proto r (columnList records)).length = (columnList records).length
    ∧ (∀ col,
        (tdCell (formatValue (getCellValue proto r col)) = tdCell mutedPlaceholder ↔
          getCellValue proto r col = .null ∨ getCellValue proto r col = .undefined)
        ∧ (∀ fs, r = JSVal.obj fs → fs.lookup col = none →
            getCellValue proto r col = proto r col)) := by
  refine ⟨by simp [rowsHtml], by simp [rowCells], ?_⟩
  intro col
  constructor
  · constructor
    · intro hcell
      have hfv : formatValue (getCellValue proto r col) = mutedPlaceholder := by
        have h1 := List.append_cancel_left
          (show "<td>".toList
                ++ (formatValue (getCellValue proto r col) ++ "</td>".toList)
              = "<td>".toList ++ (mutedPlaceholder ++ "</td>".toList) by
            simpa [tdCell, List.append_assoc] using hcell)
        exact List.append_cancel_right h1
      exact (formatValue_placeholder_iff _).mp hfv
    · intro hv
      have : formatValue (getCellValue proto r col) = mutedPlaceholder :=
        (formatValue_placeholder_iff _).mpr
          (by rcases hv with hv | hv <;> simp [hv])
      rw [this]
  · intro fs hr hnone
    subst hr
    simp [getCellValue, jsTruthy, jsIndex, hnone]

/-- Concrete records for the C10 analysis: a plain object owning the key
`"0"` next to an array record. -/
def c10Recs : List JSVal := [JSVal.obj [("0", JSVal.str "x")], JSVal.arr [JSVal.str "y"]]

/-- An empty prototype chain for the concrete C10 scenarios.  The cell
read below hits the array's own index `"0"`, which no chain can shadow,
so the outcome is the same under every chain. -/
def c10Proto : JSVal → String → JSVal := fun _ _ => JSVal.undefined

/-- Claim C10, counterexample to the original statement: in `c10Recs` the
column `"0"` is inferred from the object record, and the array record —
which is not a plain object — does NOT render the placeholder in that
column: JavaScript indexing `[".."][0]` yields the element (an own
property, independent of the prototype chain), which renders as its
text. -/
theorem table_rows_nonobject_counterexample :
    JSVal.arr [JSVal.str "y"] ∈ c10Recs
    ∧ contributesColumns (JSVal.arr [JSVal.str "y"]) = false
    ∧ "0" ∈ columnList c10Recs
    ∧ tdCell (formatValue (getCellValue c10Proto (JSVal.arr [JSVal.str "y"]) "0"))
        ≠ tdCell mutedPlaceholder := by
  refine ⟨by simp [c10Recs], rfl, by decide, ?_⟩
  have hv : getCellValue c10Proto (JSVal.arr [JSVal.str "y"]) "0" = JSVal.str "y" := rfl
  rw [hv]
  have hf : formatValue (JSVal.str "y") = escapeHtml "y".toList := by
    simp [formatValue, jsTypeofIsObject, jsToString]
  rw [hf]
  decide

/-- A one-entry standard-library-like prototype chain for the C10
witness: every object inherits a `toString` function. -/
def c10StdProto : JSVal → String → JSVal := fun _ col =>
  if col = "toString"
    then JSVal.func "function toString() \x7b [native code] \x7d"
    else JSVal.undefined

/-- Witness for the amended C10 at a concrete input and a realistic
chain: a one-object dataset whose single row has one cell, whose
missing-data-key reads resolve to the chain — `undefined` for data-named
columns, the inherited function for `toString`. -/
theorem table_rows_cells_witness :
    (rowsHtml c10StdProto [JSVal.obj [("a", JSVal.num 1)]]).length
        = ([JSVal.obj [("a", JSVal.num 1)]] : List JSVal).length
    ∧ (rowCells c10StdProto (JSVal.obj [("a", JSVal.num 1)])
          (columnList [JSVal.obj [("a", JSVal.num 1)]])).length
        = (columnList [JSVal.obj [("a", JSVal.num 1)]]).length
    ∧ (∀ col,
        (tdCell (formatValue
              (getCellValue c10StdProto (JSVal.obj [("a", JSVal.num 1)]) col))
            = tdCell mutedPlaceholder ↔
          getCellValue c10StdProto (JSVal.obj [("a", JSVal.num 1)]) col = .null
          ∨ getCellValue c10StdProto (JSVal.obj [("a", JSVal.num 1)]) col
              = .undefined)
        ∧ (∀ fs, JSVal.obj [("a", JSVal.num 1)] = JSVal.obj fs →
            fs.lookup col = none →
            getCellValue c10StdProto (JSVal.obj [("a", JSVal.num 1)]) col
              = c10StdProto (JSVal.obj [("a", JSVal.num 1)]) col)) :=
  table_rows_cells c10StdProto [JSVal.obj [("a", JSVal.num 1)]]
    (JSVal.obj [("a", JSVal.num 1)]) (List.mem_singleton.mpr rfl)

/-- `fetchText(url)` (src/web/app.js:84-93) against an abstract resource
map: `none` models every failure path (non-2xx status or network error,
both of which return `null`), `some body` a successful `res.text()`. -/
def fetchText (textResources : String → Option String) (url : String) : Option String :=
  textResources url

/-- `fetchJSON(url)` (src/web/app.js:73-82) against an abstract resource
map: `none` models absence/error, `some v` a successfully parsed body. -/
def fetchJSON (jsonResources : String → Option JSVal) (url : String) : Option JSVal :=
  jsonResources url

/-- JavaScript `a || b` on a fetched-text variable: the first operand wins
only when truthy, i.e. non-null and non-empty. -/
def jsOrText (a b : Option String) : Option String :=
  match a with
  | some s => if s = "" then b else some s
  | none => b

/-- JavaScript `if (!summary) summary = b` on a fetched-JSON variable: the
first operand wins only when truthy. -/
def jsOrVal (a b : Option JSVal) : Option JSVal :=
  match a with
  | some v => if jsTruthy v then some v else b
  | none => b

/-- The initial application state (src/web/app.js:12-18). -/
def initialState : AppState :=
  { summary := none, contacts := [], chats := [], messages := [],
    dataset := "contacts" }

/-- `loadByPrefix(prefix)` (src/web/app.js:310-345).  `none` models the
blank-prefix rejection (alert, no network activity).  Otherwise the
summary and the three dataset texts are resolved through their fallback
chains, parsed, and applied; the final name avoids clashing with the
rendered markup helpers.  The `try/catch` around the body is dead in the
model: every modelled step is total. -/
def loadByPfx (jsonResources : String → Option JSVal)
    (textResources : String → Option String)
    (jsonParse : String → Option JSVal)
    (pfx : String) (st : AppState) : Option AppState :=
  let trimmed := String.mk (trimChars pfx.toList)
  if trimmed = "" then none
  else
    let base := "../data/" ++ trimmed
    let summary := jsOrVal (fetchJSON jsonResources (base ++ "/summary.json"))
      (fetchJSON jsonResources (base ++ "/load_summary.json"))
    let contactsText := jsOrText
      (fetchText textResources (base ++ "/contacts_export_status.ndjson"))
      (fetchText textResources (base ++ "/contacts.ndjson"))
    let chatsText := jsOrText
      (fetchText textResources (base ++ "/chats_export_status.ndjson"))
      (fetchText textResources (base ++ "/chats.ndjson"))
    let messagesText := jsOrText
      (fetchText textResources (base ++ "/messages_export_status.ndjson"))
      (fetchText textResources (base ++ "/messages.ndjson"))
    let contacts := (parseNDJSON jsonParse contactsText).1
    let chats := (parseNDJSON jsonParse chatsText).1
    let messages := (parseNDJSON jsonParse messagesText).1
    some (applyData
      (JSVal.obj [("summary", summary.getD JSVal.null),
                  ("contacts", JSVal.arr contacts),
                  ("chats", JSVal.arr chats),
                  ("messages", JSVal.arr messages)])
      st)

/-- The resolved base location `../data/<trimmed prefix>` of
src/web/app.js:317. -/
def baseOf (pfx : String) : String :=
  "../data/" ++ String.mk (trimChars pfx.toList)

/-- Projections of `applyData` on the payload shape that `loadByPrefix`
assembles. -/
theorem applyData_loader_payload (s : JSVal) (c h m : List JSVal) (st : AppState) :
    (applyData (JSVal.obj [("summary", s), ("contacts", JSVal.arr c),
        ("chats", JSVal.arr h), ("messages", JSVal.arr m)]) st).contacts = c
    ∧ (applyData (JSVal.obj [("summary", s), ("contacts", JSVal.arr c),
        ("chats", JSVal.arr h), ("messages", JSVal.arr m)]) st).chats = h
    ∧ (applyData (JSVal.obj [("summary", s), ("contacts", JSVal.arr c),
        ("chats", JSVal.arr h), ("messages", JSVal.arr m)]) st).messages = m :=
  ⟨rfl, rfl, rfl⟩

/-- The three behaviours of one `(await fetchText(exp)) || (await
fetchText(raw))` selection, as seen by the parser. -/
theorem fallback_text_cases (jsonParse : String → Option JSVal)
    (expT rawT : Option String) :
    (∀ t, expT = some t → t ≠ "" →
      (parseNDJSON jsonParse (jsOrText expT rawT)).1
        = (parseNDJSON jsonParse (some t)).1)
    ∧ ((expT = none ∨ expT = some "") →
      (parseNDJSON jsonParse (jsOrText expT rawT)).1
        = (parseNDJSON jsonParse rawT).1)
    ∧ (expT = none → rawT = none →
      (parseNDJSON jsonParse (jsOrText expT rawT)).1 = []) := by
  refine ⟨?_, ?_, ?_⟩
  · rintro t rfl ht
    simp [jsOrText, ht]
  · rintro (rfl | rfl) <;> simp [jsOrText]
  · rintro rfl rfl
    rfl

/-- Claim C8 (amended): in a prefix-based load, each of the three
datasets tries its export-status resource first and its raw resource as
fallback, but the export-status text wins only when it is non-null AND
non-empty — a `200` response with an empty body is falsy under `||` and
falls through to the raw variant (this is where the original claim
fails; see the counterexample) — and when the export-status fetch yields
nothing the dataset is whatever the raw variant parses to, in particular
the empty sequence when neither resource exists. -/
theorem loadByPfx_fallback (jsonResources : String → Option JSVal)
    (textResources : String → Option String) (jsonParse : String → Option JSVal)
    (pfx : String) (st : AppState)
    (htrim : String.mk (trimChars pfx.toList) ≠ "") :
    ((∀ t, textResources (baseOf pfx ++ "/contacts_export_status.ndjson")
          = some t → t ≠ "" →
      (loadByPfx jsonResources textResources jsonParse pfx st).map AppState.contacts
        = some (parseNDJSON jsonParse (some t)).1)
    ∧ ((textResources (baseOf pfx ++ "/contacts_export_status.ndjson") = none
        ∨ textResources (baseOf pfx ++ "/contacts_export_status.ndjson") = some "") →
      (loadByPfx jsonResources textResources jsonParse pfx st).map AppState.contacts
        = some (parseNDJSON jsonParse
            (textResources (baseOf pfx ++ "/contacts.ndjson"))).1)
    ∧ (textResources (baseOf pfx ++ "/contacts_export_status.ndjson") = none →
       textResources (baseOf pfx ++ "/contacts.ndjson") = none →
      (loadByPfx jsonResources textResources jsonParse pfx st).map AppState.contacts
        = some []))
    ∧ ((∀ t, textResources (baseOf pfx ++ "/chats_export_status.ndjson")
          = some t → t ≠ "" →
      (loadByPfx jsonResources textResources jsonParse pfx st).map AppState.chats
        = some (parseNDJSON jsonParse (some t)).1)
    ∧ ((textResources (baseOf pfx ++ "/chats_export_status.ndjson") = none
        ∨ textResources (baseOf pfx ++ "/chats_export_status.ndjson") = some "") →
      (loadByPfx jsonResources textResources jsonParse pfx st).map AppState.chats
        = some (parseNDJSON jsonParse
            (textResources (baseOf pfx ++ "/chats.ndjson"))).1)
    ∧ (textResources (baseOf pfx ++ "/chats_export_status.ndjson") = none →
       textResources (baseOf pfx ++ "/chats.ndjson") = none →
      (loadByPfx jsonResources textResources jsonParse pfx st).map AppState.chats
        = some []))
    ∧ ((∀ t, textResources (baseOf pfx ++ "/messages_export_status.ndjson")
          = some t → t ≠ "" →
      (loadByPfx jsonResources textResources jsonParse pfx st).map AppState.messages
        = some (parseNDJSON jsonParse (some t)).1)
    ∧ ((textResources (baseOf pfx ++ "/messages_export_status.ndjson") = none
        ∨ textResources (baseOf pfx ++ "/messages_export_status.ndjson") = some "") →
      (loadByPfx jsonResources textResources jsonParse pfx st).map AppState.messages
        = some (parseNDJSON jsonParse
            (textResources (baseOf pfx ++ "/messages.ndjson"))).1)
    ∧ (textResources (baseOf pfx ++ "/messages_export_status.ndjson") = none →
       textResources (baseOf pfx ++ "/messages.ndjson") = none →
      (loadByPfx jsonResources textResources jsonParse pfx st).map AppState.messages
        = some [])) := by
  have hload : loadByPfx jsonResources textResources jsonParse pfx st
      = some (applyData
          (JSVal.obj [("summary",
              (jsOrVal (fetchJSON jsonResources (baseOf pfx ++ "/summary.json"))
                (fetchJSON jsonResources
                  (baseOf pfx ++ "/load_summary.json"))).getD JSVal.null),
            ("contacts", JSVal.arr (parseNDJSON jsonParse
              (jsOrText (textResources (baseOf pfx ++ "/contacts_export_status.ndjson"))
                (textResources (baseOf pfx ++ "/contacts.ndjson")))).1),
            ("chats", JSVal.arr (parseNDJSON jsonParse
              (jsOrText (textResources (baseOf pfx ++ "/chats_export_status.ndjson"))
                (textResources (baseOf pfx ++ "/chats.ndjson")))).1),
            ("messages", JSVal.arr (parseNDJSON jsonParse
              (jsOrText (textResources (baseOf pfx ++ "/messages_export_status.ndjson"))
                (textResources (baseOf pfx ++ "/messages.ndjson")))).1)])
          st) := by
    simp only [loadByPfx]
    rw [if_neg htrim]
    rfl
  have hc : (loadByPfx jsonResources textResources jsonParse pfx st).map
        AppState.contacts
      = some ((parseNDJSON jsonParse
          (jsOrText (textResources (baseOf pfx ++ "/contacts_export_status.ndjson"))
            (textResources (baseOf pfx ++ "/contacts.ndjson")))).1) := by
    rw [hload]
    rfl
  have hh : (loadByPfx jsonResources textResources jsonParse pfx st).map
        AppState.chats
      = some ((parseNDJSON jsonParse
          (jsOrText (textResources (baseOf pfx ++ "/chats_export_status.ndjson"))
            (textResources (baseOf pfx ++ "/chats.ndjson")))).1) := by
    rw [hload]
    rfl
  have hm : (loadByPfx jsonResources textResources jsonParse pfx st).map
        AppState.messages
      = some ((parseNDJSON jsonParse
          (jsOrText (textResources (baseOf pfx ++ "/messages_export_status.ndjson"))
            (textResources (baseOf pfx ++ "/messages.ndjson")))).1) := by
    rw [hload]
    rfl
  refine ⟨⟨?_, ?_, ?_⟩, ⟨?_, ?_, ?_⟩, ⟨?_, ?_, ?_⟩⟩
  · intro t hexp ht
    rw [hc]
    exact congrArg some ((fallback_text_cases jsonParse _ _).1 t hexp ht)
  · intro hor
    rw [hc]
    exact congrArg some ((fallback_text_cases jsonParse _ _).2.1 hor)
  · intro hexp hraw
    rw [hc]
    exact congrArg some ((fallback_text_cases jsonParse _ _).2.2 hexp hraw)
  · intro t hexp ht
    rw [hh]
    exact congrArg some ((fallback_text_cases jsonParse _ _).1 t hexp ht)
  · intro hor
    rw [hh]
    exact congrArg some ((fallback_text_cases jsonParse _ _).2.1 hor)
  · intro hexp hraw
    rw [hh]
    exact congrArg some ((fallback_text_cases jsonParse _ _).2.2 hexp hraw)
  · intro t hexp ht
    rw [hm]
    exact congrArg some ((fallback_text_cases jsonParse _ _).1 t hexp ht)
  · intro hor
    rw [hm]
    exact congrArg some ((fallback_text_cases jsonParse _ _).2.1 hor)
  · intro hexp hraw
    rw [hm]
    exact congrArg some ((fallback_text_cases jsonParse _ _).2.2 hexp hraw)

/-- Concrete text resources for the C8 witness: the export-status variant
of contacts and the raw variant of messages exist, each with one record
line; no chats resource exists. -/
def c8TextRes : String → Option String := fun url =>
  if url = "../data/p/contacts_export_status.ndjson" then some "true"
  else if url = "../data/p/messages.ndjson" then some "true" else none

/-- Concrete JSON parser for the C8 scenarios: decodes the single line
`true`. -/
def c8Parse : String → Option JSVal := fun s =>
  if s = "true" then some (JSVal.bool true) else none

/-- Empty JSON resource map for the C8 scenarios. -/
def c8JsonRes : String → Option JSVal := fun _ => none

/-- Witness for C8 at concrete inputs, exercising all three datasets: the
contacts export-status text wins, the absent chats resources give the
empty sequence, and messages fall back to the raw variant. -/
theorem loadByPfx_fallback_witness :
    (loadByPfx c8JsonRes c8TextRes c8Parse "p" initialState).map AppState.contacts
      = some (parseNDJSON c8Parse (some "true")).1
    ∧ (loadByPfx c8JsonRes c8TextRes c8Parse "p" initialState).map AppState.chats
      = some []
    ∧ (loadByPfx c8JsonRes c8TextRes c8Parse "p" initialState).map AppState.messages
      = some (parseNDJSON c8Parse (c8TextRes (baseOf "p" ++ "/messages.ndjson"))).1 := by
  have h := loadByPfx_fallback c8JsonRes c8TextRes c8Parse "p" initialState (by decide)
  exact ⟨h.1.1 "true" rfl (by decide), h.2.1.2.2 rfl rfl, h.2.2.2.1 (Or.inl rfl)⟩

/-- Concrete text resources for the C8 counterexample: the export-status
variant exists but is empty, the raw variant holds one record line. -/
def c8bTextRes : String → Option String := fun url =>
  if url = "../data/p/contacts_export_status.ndjson" then some ""
  else if url = "../data/p/contacts.ndjson" then some "true" else none

/-- Claim C8, counterexample to the original statement: the export-status
text is non-null (the resource exists, with an empty body), yet the loader
does NOT feed it to the parser — the parsed raw variant ends up in the
state, where the original claim requires the empty sequence parsed from
the non-null export-status text. -/
theorem loadByPfx_empty_export_counterexample :
    c8bTextRes "../data/p/contacts_export_status.ndjson" = some ""
    ∧ (parseNDJSON c8Parse (some "")).1 = []
    ∧ (loadByPfx c8JsonRes c8bTextRes c8Parse "p" initialState).map AppState.contacts
        = some [JSVal.bool true]
    ∧ ([JSVal.bool true] : List JSVal) ≠ (parseNDJSON c8Parse (some "")).1 := by
  refine ⟨rfl, rfl, rfl, ?_⟩
  intro hcontra
  have hlen := congrArg List.length hcontra
  simp [parseNDJSON] at hlen

/-- The outcome of one `runTest()` call (src/web/app.js:406-449): the
application state afterwards, the text and class written to the status
element, and — when the call failed — the message of the error that was
thrown, logged and surfaced. -/
structure TestOutcome where
  state : AppState
  statusText : String
  statusClass : String
  loggedError : Option String

/-- `text || '{}'` of src/web/app.js:424. -/
def textOrBraces (text : String) : String :=
  if text = "" then String.mk [lbrace, rbrace] else text

/-- The malformed-JSON error message thrown at src/web/app.js:426. -/
def invalidJsonMsg : String := "Resposta inválida da função (JSON malformado)."

/-- The error message composed for a non-2xx response
(src/web/app.js:430-432): the body's truthy `error` field (or the fixed
fallback), followed by a hint line when the body has a truthy `hint`. -/
def errMsgOf (payload : JSVal) : String :=
  (if jsTruthy (getField payload "error")
      then jsToString (getField payload "error")
      else "Falha na função serverless")
    ++ (if jsTruthy (getField payload "hint")
        then "\nDica: " ++ jsToString (getField payload "hint")
        else "")

/-- `runTest()` (src/web/app.js:406-449).  The network is abstracted as
`response`: `none` when `fetch` itself throws (with `netErrMsg` the thrown
error's message), otherwise the status code and body text.  The body is
parsed before the status check, exactly as in the source; every `throw`
lands in the `catch` arm, which leaves the state untouched and surfaces
`Erro: <message>` while logging the error.  One further failure mode of
the source is the property read `payload.error` on line 430: when the
parsed body is `null` (body text `"null"`) it throws a `TypeError`, whose
engine-specific message enters as `typeErrMsg`. -/
def runTest (jsonParse : String → Option JSVal) (response : Option (Nat × String))
    (netErrMsg typeErrMsg : String) (st : AppState) : TestOutcome :=
  match response with
  | none =>
    { state := st, statusText := "Erro: " ++ netErrMsg,
      statusClass := "error", loggedError := some netErrMsg }
  | some (status, text) =>
    match jsonParse (textOrBraces text) with
    | none =>
      { state := st, statusText := "Erro: " ++ invalidJsonMsg,
        statusClass := "error", loggedError := some invalidJsonMsg }
    | some payload =>
      if 200 ≤ status ∧ status ≤ 299 then
        { state := applyData payload st,
          statusText := "Teste concluído com sucesso.",
          statusClass := "success", loggedError := none }
      else if isNullish payload then
        { state := st, statusText := "Erro: " ++ typeErrMsg,
          statusClass := "error", loggedError := some typeErrMsg }
      else
        { state := st, statusText := "Erro: " ++ errMsgOf payload,
          statusClass := "error", loggedError := some (errMsgOf payload) }

/-- Claim C9: every failing self-test — network error, malformed JSON
body, or non-2xx status (whether its body is an ordinary value or the
nullish payload on which the `payload.error` read itself throws) — leaves
the application state exactly as it was (`applyData` is reached on no
failure path), surfaces `Erro: <message>` as the visible status with the
error class, and logs the same message; for a non-2xx body carrying
truthy `error` and `hint` fields the message is the error text followed
by the hint line. -/
theorem runTest_failure_preserves_state (jsonParse : String → Option JSVal)
    (response : Option (Nat × String)) (netErrMsg typeErrMsg : String)
    (st : AppState) :
    (response = none →
      (runTest jsonParse response netErrMsg typeErrMsg st).state = st
      ∧ (runTest jsonParse response netErrMsg typeErrMsg st).statusText
          = "Erro: " ++ netErrMsg
      ∧ (runTest jsonParse response netErrMsg typeErrMsg st).statusClass = "error"
      ∧ (runTest jsonParse response netErrMsg typeErrMsg st).loggedError
          = some netErrMsg)
    ∧ (∀ status text, response = some (status, text) →
        jsonParse (textOrBraces text) = none →
        (runTest jsonParse response netErrMsg typeErrMsg st).state = st
        ∧ (runTest jsonParse response netErrMsg typeErrMsg st).statusText
            = "Erro: " ++ invalidJsonMsg
        ∧ (runTest jsonParse response netErrMsg typeErrMsg st).statusClass = "error"
        ∧ (runTest jsonParse response netErrMsg typeErrMsg st).loggedError
            = some invalidJsonMsg)
    ∧ (∀ status text payload, response = some (status, text) →
        jsonParse (textOrBraces text) = some payload →
        ¬(200 ≤ status ∧ status ≤ 299) →
        isNullish payload = true →
        (runTest jsonParse response netErrMsg typeErrMsg st).state = st
        ∧ (runTest jsonParse response netErrMsg typeErrMsg st).statusText
            = "Erro: " ++ typeErrMsg
        ∧ (runTest jsonParse response netErrMsg typeErrMsg st).statusClass = "error"
        ∧ (runTest jsonParse response netErrMsg typeErrMsg st).loggedError
            = some typeErrMsg)
    ∧ (∀ status text payload, response = some (status, text) →
        jsonParse (textOrBraces text) = some payload →
        ¬(200 ≤ status ∧ status ≤ 299) →
        isNullish payload = false →
        (runTest jsonParse response netErrMsg typeErrMsg st).state = st
        ∧ (runTest jsonParse response netErrMsg typeErrMsg st).statusText
            = "Erro: " ++ errMsgOf payload
        ∧ (runTest jsonParse response netErrMsg typeErrMsg st).statusClass = "error"
        ∧ (runTest jsonParse response netErrMsg typeErrMsg st).loggedError
            = some (errMsgOf payload))
    ∧ (∀ e h : JSVal, jsTruthy e → jsTruthy h →
        errMsgOf (JSVal.obj [("error", e), ("hint", h)])
          = jsToString e ++ ("\nDica: " ++ jsToString h)) := by
  refine ⟨?_, ?_, ?_, ?_, ?_⟩
  · rintro rfl
    exact ⟨rfl, rfl, rfl, rfl⟩
  · rintro status text rfl hparse
    simp [runTest, hparse]
  · rintro status text payload rfl hparse hstatus hnull
    simp [runTest, hparse, hstatus, hnull]
  · rintro status text payload rfl hparse hstatus hnull
    simp [runTest, hparse, hstatus, hnull]
  · intro e h he hh
    have hge : getField (JSVal.obj [("error", e), ("hint", h)]) "error" = e := rfl
    have hgh : getField (JSVal.obj [("error", e), ("hint", h)]) "hint" = h := rfl
    simp [errMsgOf, hge, hgh, he, hh]

/-- The failing response body of the spec's scenario 3, as raw text. -/
def c9Body : String :=
  "\x7b\"error\":\"auth failed\",\"hint\":\"rotate token\"\x7d"

/-- The payload that body decodes to. -/
def c9Payload : JSVal :=
  JSVal.obj [("error", JSVal.str "auth failed"), ("hint", JSVal.str "rotate token")]

/-- Concrete JSON parser for the C9 witness. -/
def c9Parse : String → Option JSVal := fun s =>
  if s = c9Body then some c9Payload else none

theorem runTest_failure_preserves_state_witness :
    (runTest c9Parse (some (500, c9Body)) "net" "type" initialState).state
        = initialState
    ∧ (runTest c9Parse (some (500, c9Body)) "net" "type" initialState).statusText
        = "Erro: " ++ errMsgOf c9Payload
    ∧ errMsgOf c9Payload
        = jsToString (JSVal.str "auth failed")
          ++ ("\nDica: " ++ jsToString (JSVal.str "rotate token")) := by
  have h := runTest_failure_preserves_state c9Parse (some (500, c9Body)) "net" "type"
    initialState
  have hb := h.2.2.2.1 500 c9Body c9Payload rfl rfl (by omega) rfl
  exact ⟨hb.1, hb.2.1, h.2.2.2.2 (JSVal.str "auth failed") (JSVal.str "rotate token")
    (by decide) (by decide)⟩

end BotmakerViewer
